import Mathlib

/-!
Verification development for the Perudo (Liar's Dice) repository.

The definitions below are a shallow embedding of the Python sources:

* `src/perudo/common.py`    — face constants, `validate_face`, `DiceCounts`
* `src/perudo/actions.py`   — `Bid`, `Challenge`, `Exact`, `InvalidAction`,
  `Bid.min_next_count`, `Bid.validate`, `Challenge.get_losers`, `Exact.get_losers`
* `src/perudo/perudo_game.py` — `start_new_round` / `take_turn` round-log
  bookkeeping, `end_round` dice-history bookkeeping, `main_loop` winner report
* `src/perudo/network_stuff/messaging.py` — `WrappedMessage.from_bytes` and the
  JSON record codec of `common.py` (`BaseFrozen`)
* `src/perudo/network_stuff/network_common.py` — `Connection.ping`

Python integers are modelled as `Int` (counts, faces), Python lists as `List`,
raised exceptions as `none` / error results of `Option`-returning functions.
-/

namespace Perudo

/-! ### Constants from `common.py` (lines 12-20) -/
def WILD_FACE_VAL : Int := 1

def MIN_FACE_VAL : Int := 1

def MAX_FACE_VAL : Int := 6

/-- `NUM_FACES = MAX_FACE_VAL - MIN_FACE_VAL + 1` (common.py line 15). -/
def NUM_FACES : Int := MAX_FACE_VAL - MIN_FACE_VAL + 1

def STARTING_NUM_DICE : Nat := 5

/-- `common.validate_face` (common.py lines 23-24). -/
def validate_face (face : Int) : Bool :=
  MIN_FACE_VAL ≤ face && face ≤ MAX_FACE_VAL

/-! ### Python list indexing

CPython sequence subscription: a negative index `i` is first shifted by the
length; an index that is still out of bounds raises `IndexError` (modelled as
`none`). -/
def pyListGet (l : List Int) (i : Int) : Option Int :=
  if i < 0 then
    if i + l.length < 0 then none else l[(i + l.length).toNat]?
  else
    l[i.toNat]?

/-! ### `DiceCounts` (common.py lines 334-386)

`counts` models the `_counts` field: a list of length `NUM_FACES`, slot `k`
holding the count of face `MIN_FACE_VAL + k`. -/
structure DiceCounts where
  counts : List Int

/-- `DiceCounts.__getitem__` (common.py lines 375-376):
`self._counts[face - MIN_FACE_VAL]` with Python list-indexing semantics. -/
def DiceCounts.getitem (d : DiceCounts) (face : Int) : Option Int :=
  pyListGet d.counts (face - MIN_FACE_VAL)

/-! ### Actions (actions.py)

`Action` covers the concrete action classes.  `invalidA` carries the attempted
action and the reason string, exactly as `InvalidAction(attempted_action, reason)`
does; the reason strings reproduce the literals of the source (the one
interpolated message is reproduced up to the `repr` of the previous bid). -/
structure Bid where
  face : Int
  count : Int
  deriving DecidableEq, Repr

inductive Action where
  | bidA (b : Bid)
  | challengeA
  | exactA
  | invalidA (attempted : Action) (reason : String)
  | noOpA
  | noOpFirstTurnSkipA
  | noOpDeadA
  deriving DecidableEq, Repr

/-- The constant `2 ^ 53` as a numeral: the largest magnitude up to which
every integer is exactly representable as an IEEE-754 binary64 float (the
numeral form keeps kernel evaluation shallow). -/
def TWO_POW_53 : Nat := 9007199254740992

/-- The constant `2 ^ 1024` as a numeral: the smallest magnitude a binary64
float cannot represent; a true-division result that rounds to it (or beyond)
raises `OverflowError` in CPython. -/
def TWO_POW_1024 : Nat := 179769313486231590772930519078902473361797697894230657273430081157732675805500963132708477322407536021120113879871393357658789768814416622492847430639474124377767893424865485276302219601246094119453082952085005768838150682342462881473913110540827237163350510684586298239947245938479716304835356329624224137216

/-- For `TWO_POW_53 < a`, the smallest power of two `d` (doubling upward
from `2`) with `a < 2 ^ 53 * d`; then `2 ^ 52 * d ≤ a < 2 ^ 53 * d`, so `d`
is `2 ^ (bitlength a - 53)` — the distance between consecutive binary64
floats of magnitude `a / 2`, in halves.  The fuel bounds the doubling; with
fuel 1200 the scale is exact for every `a < 2 ^ 1253`, far beyond the float
overflow threshold, and capping the scale for even larger `a` still leaves
the computed magnitude above the overflow threshold. -/
def nat_bit_scale : Nat → Nat → Nat → Nat
  | 0, _, d => d
  | fuel + 1, a, d => if a < TWO_POW_53 * d then d else nat_bit_scale fuel a (2 * d)

/-- Python `math.ceil(c / 2)` for an `int` `c`, where `c / 2` is binary64
float true division (CPython computes the correctly rounded quotient):

* for `|c| ≤ 2 ^ 53` the quotient `c / 2` is exactly representable (its
  significand is that of `c`), so the ceiling is the exact integer ceiling
  `-((-c) // 2)`;
* for `|c| > 2 ^ 53` the quotient is rounded to the nearest multiple of the
  local float spacing `half = d / 2` (ties to the even multiple `m`); the
  spacing is at least 1, so the rounded value is an integer and `math.ceil`
  is the identity — this is where the code diverges from the exact ceiling,
  first at `|c| = 2 ^ 53 + 1`;
* a rounded magnitude of `2 ^ 1024` or more raises `OverflowError`
  (modelled as `none`). -/
def py_ceil_half (c : Int) : Option Int :=
  if c.natAbs ≤ TWO_POW_53 then
    some (-((-c) / 2))
  else
    let a : Nat := c.natAbs
    let d : Nat := nat_bit_scale 1200 a 2
    let q : Nat := a / d
    let r : Nat := a % d
    let half : Nat := d / 2
    let m : Nat := if half < r ∨ (r = half ∧ q % 2 = 1) then q + 1 else q
    let mag : Nat := m * half
    if TWO_POW_1024 ≤ mag then none
    else if c < 0 then some (-(mag : Int)) else some (mag : Int)

/-- The branch arithmetic of `Bid.min_next_count` (actions.py lines 203-211),
written after the two `assert validate_face` lines have passed; the two
`math.ceil(self.count / 2)` branches go through float division
(`py_ceil_half`), the `self.count * 2 + 1` branch is pure `int`
arithmetic. -/
def min_next_count_arith (pface pcount nface : Int) : Option Int :=
  if nface = pface then some (pcount + 1)
  else if nface > pface ∧ pface ≠ WILD_FACE_VAL then some pcount
  else if nface = WILD_FACE_VAL then py_ceil_half pcount
  else if pface = WILD_FACE_VAL then some (pcount * 2 + 1)
  else (py_ceil_half pcount).map fun h => h * 2 + 1

/-- `Bid.min_next_count` (actions.py lines 200-211).  The two `assert`
statements at its head raise `AssertionError` when either face is out of
range; a raised exception — the asserts, or `OverflowError` from the float
division — is modelled as `none`. -/
def Bid.min_next_count (b : Bid) (next_face : Int) : Option Int :=
  if validate_face next_face && validate_face b.face then
    min_next_count_arith b.face b.count next_face
  else
    none

/-- `Bid.validate` (actions.py lines 168-198).  Returns `some a` for the value
returned (`a` is the bid itself or an `InvalidAction`), `none` when the body
raises (the `assert`s inside `min_next_count`). -/
def Bid.validate (b : Bid) (previous_action : Option Action)
    (is_single_die_round : Bool) : Option Action :=
  if ¬ validate_face b.face then
    some (.invalidA (.bidA b) "Invalid Face")
  else if b.count ≤ 0 then
    some (.invalidA (.bidA b) "Non-positive Count")
  else
    match previous_action with
    | none =>
      -- the source tests the literal `1` here (== WILD_FACE_VAL)
      if b.face = 1 ∧ is_single_die_round = false then
        some (.invalidA (.bidA b) "Invalid Starting Bid")
      else
        some (.bidA b)
    | some prev =>
      match prev with
      | .bidA pb =>
        match pb.min_next_count b.face with
        | none => none
        | some min_count =>
          if b.count < min_count then
            some (.invalidA (.bidA b)
              ("Count for face " ++ toString b.face ++ " must be at least "
                ++ toString min_count ++ " (because of previous_action)"))
          else
            some (.bidA b)
      | _ => some (.invalidA (.bidA b) "Following non-bid (should be impossible)")

/-- `Challenge.get_losers` (actions.py lines 240-262), generic in the player
representation `T` exactly as the Python method is.  `none` models a raised
`IndexError` from `DiceCounts.__getitem__`. -/
def Challenge.get_losers {T : Type} (previous_action : Option Action)
    (all_dice_counts : DiceCounts) (is_single_die_round : Bool)
    (caller previous_player : T) (other_players : List T) : Option (List T) :=
  match previous_action with
  | some (.bidA pb) =>
    (all_dice_counts.getitem pb.face).bind fun base =>
      (if is_single_die_round = false ∧ pb.face ≠ WILD_FACE_VAL then
          (all_dice_counts.getitem WILD_FACE_VAL).map fun w => base + w
        else some base).bind fun num_existing =>
      some (if num_existing < pb.count then [previous_player] else [caller])
  | _ =>
    -- prints a warning and returns [caller]
    some [caller]

/-- `Exact.get_losers` (actions.py lines 272-295); `list(other_players)` is the
identity on our `List` model of the collection. -/
def Exact.get_losers {T : Type} (previous_action : Option Action)
    (all_dice_counts : DiceCounts) (is_single_die_round : Bool)
    (caller previous_player : T) (other_players : List T) : Option (List T) :=
  match previous_action with
  | some (.bidA pb) =>
    (all_dice_counts.getitem pb.face).bind fun base =>
      (if is_single_die_round = false ∧ pb.face ≠ WILD_FACE_VAL then
          (all_dice_counts.getitem WILD_FACE_VAL).map fun w => base + w
        else some base).bind fun num_existing =>
      some (if num_existing = pb.count then other_players else [caller])
  | _ =>
    some [caller]

/-! ### Spec-side definitions (for refinement claims)

`spec_min_next_count` is modelled from the five-case table of spec section 4.1,
not from the source; `spec_ceil_half` is the mathematical `ceil(c/2)` written
for the nonnegative counts the table is stated over. -/
def spec_ceil_half (c : Int) : Int := (c + 1) / 2

def spec_min_next_count (prevFace prevCount face : Int) : Int :=
  if face = prevFace then prevCount + 1
  else if face > prevFace ∧ prevFace ≠ WILD_FACE_VAL then prevCount
  else if face = WILD_FACE_VAL then spec_ceil_half prevCount
  else if prevFace = WILD_FACE_VAL then prevCount * 2 + 1
  else spec_ceil_half prevCount * 2 + 1

/-- The condition under which claim C5 says `Bid.validate` returns an
`InvalidAction`: face out of range, non-positive count, wild-face opening bid
outside a single-die round, previous action not a bid, or count below the
value `min_next_count` computes (written with the assert-free branch
arithmetic, which includes the float division). -/
def bid_validate_claim_condition (b : Bid) (p : Option Action) (s : Bool) : Prop :=
  validate_face b.face = false
  ∨ b.count ≤ 0
  ∨ (p = none ∧ b.face = WILD_FACE_VAL ∧ s = false)
  ∨ (∃ a, p = some a ∧ ∀ pb, a ≠ .bidA pb)
  ∨ (∃ pb m, p = some (.bidA pb)
      ∧ min_next_count_arith pb.face pb.count b.face = some m ∧ b.count < m)

/-- Claim C5 instantiated at one input: `validate` returns an `InvalidAction`
without raising exactly under `bid_validate_claim_condition`, and otherwise
returns the bid itself. -/
def bid_validate_claim_at (b : Bid) (p : Option Action) (s : Bool) : Prop :=
  (bid_validate_claim_condition b p s →
    ∃ att r, Bid.validate b p s = some (.invalidA att r))
  ∧ (¬ bid_validate_claim_condition b p s →
    Bid.validate b p s = some (.bidA b))

/-! ### Claim C2 — `Challenge.get_losers` / `Exact.get_losers` -/
/-- The matching-dice count as the claim defines it: the count at the bid
face, plus the count at the wild face when the round is not single-die and
the bid face is not wild. -/
def matching_count (counts : List Int) (F : Int) (s : Bool) : Int :=
  counts.getD (F - MIN_FACE_VAL).toNat 0
  + (if s = false ∧ F ≠ WILD_FACE_VAL
      then counts.getD (WILD_FACE_VAL - MIN_FACE_VAL).toNat 0 else 0)

/-! ### `end_round` dice-history bookkeeping (perudo_game.py lines 157-211)

`end_round` first appends a copy of the last remaining-dice snapshot and then
runs `self.num_dice_by_player_history[-1][index] = max(0, ... - 1)` for every
loser index; functionally that appends the decremented copy.  The only writers
of `num_dice_by_player_history` in the source are `end_round` (append +
decrement) and `from_player_list` (the initial all-`STARTING_NUM_DICE`
snapshot), which the reachability relation `HistReachable` mirrors. -/
def end_round_decrement (last : List Nat) (losers : List Nat) : List Nat :=
  losers.foldl (fun cur idx => cur.set idx (max 0 (cur.getD idx 0 - 1))) last

def end_round_hist (hist : List (List Nat)) (losers : List Nat) :
    List (List Nat) :=
  hist ++ [end_round_decrement (hist.getLastD []) losers]

inductive HistReachable (n : Nat) : List (List Nat) → Prop where
  | init : HistReachable n [List.replicate n STARTING_NUM_DICE]
  | step (hist : List (List Nat)) (losers : List Nat)
      (h : HistReachable n hist) : HistReachable n (end_round_hist hist losers)

/-! ### Claim C3 — the winner `main_loop` reports

`main_loop` (perudo_game.py lines 309-342) loops `take_turn` until it returns
`False` and then returns `self.cur_player_index`.  When the current player
plays an `EndAction`, `take_turn` resolves the losers and returns
`end_round(losers)` without changing `cur_player_index`; `end_round` returns
`False` when at most one player still has dice.  `main_loop_end_step` models
that terminal step: the reported winner when the round ends the game. -/
def end_round_continues (hist : List (List Nat)) (losers : List Nat) : Bool :=
  1 < (end_round_decrement (hist.getLastD []) losers).countP
        (fun num => decide (0 < num))

def main_loop_end_step (hist : List (List Nat)) (cur : Nat)
    (losers : List Nat) : Option Nat :=
  if end_round_continues hist losers then none else some cur

/-! ### Claim C4 — round-log / player-seat alignment

Model of the per-round action log of `PerudoGame`.  A log entry is a pair
`(seat, entry)` where `seat` is the player index the entry was produced on
behalf of — the ghost attribution the claim is about.

* `start_round_log` models `start_new_round` (perudo_game.py line 120):
  the fresh log is pre-padded with one `NoOpFirstTurnSkip` per player index
  below `first_player_index`.
* `find_next_living` models `get_next_living_player_index` (lines 83-93)
  while also collecting the dead seats it skips; the fuel argument models the
  `while` loop (the source raises when it wraps without finding a living
  player, modelled as `none`).
* `take_turn_step` models the non-`EndAction` tail of `take_turn`
  (lines 241, 266-275): append the acting player's entry, then one `NoOpDead`
  per skipped dead seat, then advance `cur_player_index`.
* `take_turn_end` models the `EndAction` branch (lines 241, 246-264): the
  entry is appended and the round finishes with `cur_player_index` unchanged.
-/
inductive GAct where
  | act (a : Action)
  | firstTurnSkip
  | dead
  deriving DecidableEq, Repr

structure RoundState where
  numPlayers : Nat
  numDice : List Nat
  log : List (Nat × GAct)
  cur : Nat
  finished : Bool
  deriving DecidableEq, Repr

def start_round_log (first : Nat) : List (Nat × GAct) :=
  (List.range first).map fun j => (j, GAct.firstTurnSkip)

def start_round_state (n first : Nat) (numDice : List Nat) : RoundState :=
  ⟨n, numDice, start_round_log first, first, false⟩

def find_next_living (numDice : List Nat) (n : Nat) :
    Nat → Nat → Option (List Nat × Nat)
  | 0, _ => none
  | fuel + 1, idx =>
    if numDice.getD idx 0 ≠ 0 then some ([], idx)
    else
      match find_next_living numDice n fuel ((idx + 1) % n) with
      | none => none
      | some (skipped, r) => some (idx :: skipped, r)

def take_turn_step (s : RoundState) (a : Action) : Option RoundState :=
  if s.finished then none
  else if s.numDice.getD s.cur 0 = 0 then none  -- RuntimeError (line 218)
  else
    match find_next_living s.numDice s.numPlayers s.numPlayers
        ((s.cur + 1) % s.numPlayers) with
    | none => none
    | some (skipped, nxt) =>
      some { s with
        log := s.log ++ (s.cur, GAct.act a)
          :: (skipped.map fun j => (j, GAct.dead)),
        cur := nxt }

def take_turn_end (s : RoundState) (a : Action) : Option RoundState :=
  if s.finished then none
  else if s.numDice.getD s.cur 0 = 0 then none
  else some { s with log := s.log ++ [(s.cur, GAct.act a)], finished := true }

/-- The states of one round reachable through `start_new_round` and
`take_turn`. -/
inductive RoundReachable : RoundState → Prop where
  | start (n first : Nat) (numDice : List Nat) (h0 : 0 < n) (h1 : first < n) :
      RoundReachable (start_round_state n first numDice)
  | step (s s₂ : RoundState) (a : Action) (h : RoundReachable s)
      (hs : take_turn_step s a = some s₂) : RoundReachable s₂
  | stepEnd (s s₂ : RoundState) (a : Action) (h : RoundReachable s)
      (hs : take_turn_end s a = some s₂) : RoundReachable s₂

/-! ### Claim C9 — `Connection.ping` (network_common.py lines 168-177) -/
/-- The names defined (or registered) at class level in the module
`perudo.network_stuff.messaging`: attribute access on the module resolves
exactly these class names. -/
def messaging_module_class_names : List String :=
  ["WrappedMessage", "Error", "FromServerHandshake", "ToServerHandshake",
   "NoOp", "Corrupted", "ActionRequest", "SetDice", "RoomsListResponse",
   "RequestRoomList", "JoinRoom", "CreateRoom"]

/-- Python attribute access on a module: `some attr` when the module defines
the name, `none` for the `AttributeError` raised otherwise. -/
def module_getattr (names : List String) (attr : String) : Option String :=
  if attr ∈ names then some attr else none

/-- The first evaluation step of `Connection.ping` (network_common.py line
174): resolve the attribute `NoOpMessage` on the `messaging` module in
`await self.send_obj(messaging.NoOpMessage())`. -/
def Connection.ping_first_step : Option String :=
  module_getattr messaging_module_class_names "NoOpMessage"

/-! ### Claim C7 — `WrappedMessage.from_bytes` (messaging.py lines 66-110)

The embedding starts from the successfully json/hex-parsed envelope fields
(an `Envelope`); the ed25519 primitives of the external `cryptography`
package are a parameter `verify`, and the registered-type table
`TYPE_NAME_TO_TYPE_D` together with each type's `from_json` decoder is a
parameter `registry`.  A raised `ConstructionError` is the result
`(none, st)`: the replay-guard state is unchanged because line 103
(`RECEIVED_SALTS[...].add(salt)`) runs only after the `try` block
succeeds. -/
def VERSION : String := "0.1"

/-- Byte encoding of the (ASCII) type name, modelling `type_name.encode()`. -/
def strBytes (s : String) : List Nat := s.data.map Char.toNat

/-- `WrappedMessage._get_thing_to_sign` (messaging.py lines 49-64):
`salt + public_key_bytes + type_name.encode() + data_bytes`. -/
def thing_to_sign (public_key : List Nat) (type_name : String)
    (data_bytes : List Nat) (salt : List Nat) : List Nat :=
  salt ++ public_key ++ strBytes type_name ++ data_bytes

structure Envelope where
  salt : List Nat
  public_key : List Nat
  type_name : String
  data : List Nat
  signature : List Nat
  version : String

/-- The class-level replay guard `WrappedMessage.RECEIVED_SALTS`, flattened
to the list of accepted `(public_key_bytes, salt)` pairs. -/
structure MessagingState where
  received_salts : List (List Nat × List Nat)
  deriving DecidableEq

def WrappedMessage.from_bytes {P : Type}
    (registry : String → Option (List Nat → Option P))
    (verify : List Nat → List Nat → List Nat → Bool)
    (st : MessagingState) (e : Envelope) : Option P × MessagingState :=
  if (e.public_key, e.salt) ∈ st.received_salts then (none, st)
  else
    match registry e.type_name with
    | none => (none, st)            -- unknown tag: KeyError → ConstructionError
    | some decode =>
      if e.version ≠ VERSION then (none, st)   -- version assert fails
      else if verify e.public_key e.signature
          (thing_to_sign e.public_key e.type_name e.data e.salt) = false then
        (none, st)                  -- InvalidSignature → ConstructionError
      else
        match decode e.data with
        | none => (none, st)        -- payload decode fails
        | some payload =>
          (some payload, ⟨st.received_salts ++ [(e.public_key, e.salt)]⟩)

/-! ### Claim C8 — record-codec round trip

Embedding of the `BaseFrozen` JSON codec (common.py lines 122-331) on a
universe of JSON documents (`PyVal`) and of the Python runtime values the
decoder produces (`PyObj`).

* `json_round` is the composite `json.loads(json.dumps(·))`.  JSON object
  keys are strings, so dumping a dict whose keys are `int`s (or `bool`s)
  stringifies them.  This matters for `SetDice.dice`: a
  `collections.Counter` is a `dict` subclass, so `_to_jsonable_hopefully`
  (common.py lines 287-305) serializes it as a JSON object with `int` keys.
* `field_schema` is `BaseFrozen.SUBCLASS_REGISTRY` together with each
  type's dataclass field annotations, restricted to the record types this
  claim needs.
* The `PyHint` predicates record the Python truths that drive
  `data_from_data_dict` (common.py lines 182-256): the annotation
  `collections.Counter[int]` is a `types.GenericAlias`, so
  `isinstance(FieldType, type)` is `False` and — decisively —
  `FieldType is collections.Counter` is `False`, leaving the dict→Counter
  restoration branch (lines 226-236) unreachable.
* `from_jsonable` is `common._from_jsonable` (lines 307-331); its `fuel`
  argument models the recursion stack and every evaluation below uses more
  fuel than the document depth.
-/
inductive PyVal where
  | vstr (s : String)
  | vint (n : Int)
  | vbool (b : Bool)
  | vnull
  | vlist (l : List PyVal)
  | vdict (l : List (PyVal × PyVal))

inductive PyObj where
  | ostr (s : String)
  | oint (n : Int)
  | obool (b : Bool)
  | onull
  | olist (l : List PyObj)
  | odict (l : List (PyObj × PyObj))
  | orec (type_name : String) (fields : List (String × PyObj))

def MAGIC_KEY : String := "__MAGIC_BASE_FROZEN_KEY__"

def MAGIC_VALUE : String := "__MAGIC_BASE_FROZEN_VALUE__"

def TYPE_KEY : String := "TYPE"

def DATA_KEY : String := "DATA"

/-- `json.dumps` stringifies non-string object keys (`int → decimal`,
`bool → true/false`); `json.loads` then yields them as strings. -/
def json_key : PyVal → PyVal
  | .vstr s => .vstr s
  | .vint n => .vstr (toString n)
  | .vbool b => .vstr (cond b "true" "false")
  | v => v

mutual
def json_round : PyVal → PyVal
  | .vstr s => .vstr s
  | .vint n => .vint n
  | .vbool b => .vbool b
  | .vnull => .vnull
  | .vlist l => .vlist (json_round_list l)
  | .vdict l => .vdict (json_round_entries l)

def json_round_list : List PyVal → List PyVal
  | [] => []
  | v :: rest => json_round v :: json_round_list rest

def json_round_entries : List (PyVal × PyVal) → List (PyVal × PyVal)
  | [] => []
  | (k, v) :: rest => (json_key k, json_round v) :: json_round_entries rest
end

/-- Python `dict.get` with a string key (our documents only carry string or
stringified keys at the positions this is used). -/
def pv_dict_get (entries : List (PyVal × PyVal)) (key : String) : Option PyVal :=
  match entries with
  | [] => none
  | (k, v) :: rest =>
    match k with
    | .vstr s => if s = key then some v else pv_dict_get rest key
    | _ => pv_dict_get rest key

def pv_is_magic_str (v : Option PyVal) : Bool :=
  match v with
  | some (.vstr s) => s = MAGIC_VALUE
  | _ => false

/-- The modelled dataclass field annotations. -/
inductive PyHint where
  | hstr
  | hint
  | hbool
  | hobject
  | hCounterInt

/-- `isinstance(FieldType, type)`: the annotation `collections.Counter[int]`
is a `types.GenericAlias`, not a class. -/
def PyHint.is_runtime_class : PyHint → Bool
  | .hstr => true
  | .hint => true
  | .hbool => true
  | .hobject => true
  | .hCounterInt => false

/-- `isinstance(FieldType, type) and issubclass(FieldType, BaseFrozen)`:
none of the modelled annotations denotes a `BaseFrozen` subclass. -/
def PyHint.is_basefrozen_subclass : PyHint → Bool := fun _ => false

/-- `FieldType is collections.Counter` (common.py line 227):
`collections.Counter[int] is collections.Counter` evaluates to `False`
because the annotation object is a `GenericAlias`, so the branch that would
rebuild a `Counter` from the decoded dict never fires for any annotation. -/
def PyHint.is_counter_class : PyHint → Bool := fun _ => false

/-- `common._is_instance_of_typehint` (common.py lines 74-120) restricted to
the modelled universe.  For `hCounterInt` the origin is
`collections.Counter`, so the check requires `isinstance(obj, Counter)`;
`_from_jsonable` only ever produces `str/int/bool/None/list/dict` values and
record instances — never a `Counter` — so the check is false on them all. -/
def is_instance_of_typehint (obj : PyObj) : PyHint → Bool
  | .hstr => match obj with | .ostr _ => true | _ => false
  | .hint => match obj with | .oint _ => true | .obool _ => true | _ => false
  | .hbool => match obj with | .obool _ => true | _ => false
  | .hobject => true
  | .hCounterInt => false

/-- `BaseFrozen.SUBCLASS_REGISTRY` with each type's field annotations,
restricted to the record types exercised here. -/
def field_schema : String → Option (List (String × PyHint))
  | "SetDice" => some [("dice", .hCounterInt)]
  | "Bid" => some [("face", .hint), ("count", .hint)]
  | "Error" => some [("contents", .hstr)]
  | _ => none

/-- `BaseFrozen.data_from_data_dict` (common.py lines 182-256).  Per input
field: unknown names error; the nested-`BaseFrozen` and `Counter`-class
branches are unreachable for the modelled annotations (see the `PyHint`
predicates), so the field is accepted exactly when
`_is_instance_of_typehint` passes.  The final `cls(**kwargs)` raises
`TypeError` on a missing field. -/
def data_from_data_dict (type_name : String)
    (schema : List (String × PyHint)) (input_d : List (String × PyObj)) :
    Option PyObj :=
  if input_d.all (fun p =>
        match schema.lookup p.1 with
        | none => false
        | some hint =>
          if hint.is_basefrozen_subclass then true
          else if hint.is_counter_class then true
          else is_instance_of_typehint p.2 hint)
      && schema.all (fun q => (input_d.lookup q.1).isSome) then
    some (.orec type_name input_d)
  else
    none

/-- Keys of a decoded `DATA` dict must be strings to name dataclass fields;
`data_from_data_dict` rejects anything else anyway. -/
def obj_entries_to_str_fields : List (PyObj × PyObj) →
    Option (List (String × PyObj))
  | [] => some []
  | (.ostr s, v) :: rest =>
    (obj_entries_to_str_fields rest).map (fun fs => (s, v) :: fs)
  | _ => none

mutual
def from_jsonable : Nat → PyVal → Option PyObj
  | 0, _ => none
  | _ + 1, .vstr s => some (.ostr s)
  | _ + 1, .vint n => some (.oint n)
  | _ + 1, .vbool b => some (.obool b)
  | _ + 1, .vnull => some .onull
  | fuel + 1, .vlist l => (from_jsonable_list fuel l).map .olist
  | fuel + 1, .vdict l =>
    if pv_is_magic_str (pv_dict_get l MAGIC_KEY) then
      match pv_dict_get l TYPE_KEY with
      | some (.vstr tname) =>
        match field_schema tname with
        | none => none
        | some schema =>
          match pv_dict_get l DATA_KEY with
          | none => none
          | some dataVal =>
            match from_jsonable fuel dataVal with
            | some (.odict entries) =>
              match obj_entries_to_str_fields entries with
              | none => none
              | some fields => data_from_data_dict tname schema fields
            | _ => none
      | _ => none
    else
      (from_jsonable_entries fuel l).map .odict

def from_jsonable_list : Nat → List PyVal → Option (List PyObj)
  | 0, _ => none
  | _ + 1, [] => some []
  | fuel + 1, v :: rest =>
    match from_jsonable fuel v, from_jsonable_list fuel rest with
    | some o, some os => some (o :: os)
    | _, _ => none

def from_jsonable_entries : Nat → List (PyVal × PyVal) →
    Option (List (PyObj × PyObj))
  | 0, _ => none
  | _ + 1, [] => some []
  | fuel + 1, (k, v) :: rest =>
    match from_jsonable fuel k, from_jsonable fuel v,
        from_jsonable_entries fuel rest with
    | some ok, some ov, some orest => some ((ok, ov) :: orest)
    | _, _, _ => none
end

/-- `BaseFrozen.from_dict` as called through `from_json` (common.py lines
160-180, 259-269): require the magic pair, resolve the `TYPE` tag in the
registry, run `_from_jsonable`, and require the constructed object to be of
the requested class; every raised error is `none`. -/
def from_dict (fuel : Nat) (cls : String) (v : PyVal) : Option PyObj :=
  match v with
  | .vdict l =>
    if pv_is_magic_str (pv_dict_get l MAGIC_KEY) then
      match pv_dict_get l TYPE_KEY with
      | some (.vstr tname) =>
        if (field_schema tname).isSome then
          match from_jsonable fuel v with
          | some (.orec rname fields) =>
            if rname = cls then some (.orec rname fields) else none
          | _ => none
        else none
      | _ => none
    else none
  | _ => none

/-- `_naive_base_frozen_to_d` followed by `_to_jsonable_hopefully`
(common.py lines 277-305) on a `SetDice` instance: the `dice` Counter is a
`dict` subclass and serializes as a JSON object with `int` keys. -/
def setDice_to_dict (dice : List (Int × Int)) : PyVal :=
  .vdict [(.vstr TYPE_KEY, .vstr "SetDice"),
    (.vstr DATA_KEY, .vdict [(.vstr "dice",
      .vdict (dice.map fun p => (.vint p.1, .vint p.2)))]),
    (.vstr MAGIC_KEY, .vstr MAGIC_VALUE)]

/-- The same serialization for a `Bid` record, for contrast. -/
def bid_record_to_dict (face count : Int) : PyVal :=
  .vdict [(.vstr TYPE_KEY, .vstr "Bid"),
    (.vstr DATA_KEY, .vdict [(.vstr "face", .vint face),
      (.vstr "count", .vint count)]),
    (.vstr MAGIC_KEY, .vstr MAGIC_VALUE)]

/-! ### Theorems -/

/-- In the float-exact regime `|c| ≤ 2 ^ 53`, `math.ceil(c / 2)` is the
exact integer ceiling. -/
theorem py_ceil_half_exact (c : Int) (h : c.natAbs ≤ TWO_POW_53) :
    py_ceil_half c = some (spec_ceil_half c) := by
  unfold py_ceil_half spec_ceil_half
  rw [if_pos h]
  congr 1
  omega

/-- In the float-exact regime, the branch arithmetic of `min_next_count`
computes (without raising) exactly the spec section 4.1 table. -/
theorem min_next_count_arith_exact (pface pcount nface : Int)
    (hb : pcount.natAbs ≤ TWO_POW_53) :
    min_next_count_arith pface pcount nface
      = some (spec_min_next_count pface pcount nface) := by
  have hex := py_ceil_half_exact pcount hb
  unfold min_next_count_arith spec_min_next_count
  split
  · rfl
  · split
    · rfl
    · split
      · exact hex
      · split
        · rfl
        · rw [hex]
          rfl

/-- Counterexample for C1 as stated: at `prevFace = 3`,
`prevCount = 2 ^ 53 + 1`, `nextFace = 1` the code's
`math.ceil(count / 2)` goes through float division, which rounds
`(2 ^ 53 + 1) / 2` down to `2 ^ 52` (ties to even), so `min_next_count`
returns `2 ^ 52` while the spec table's `ceil(prevCount / 2)` is
`2 ^ 52 + 1`. -/
theorem min_next_count_claim_counterexample :
    ¬ ((Bid.mk 3 (2 ^ 53 + 1)).min_next_count 1
        = some (spec_min_next_count 3 (2 ^ 53 + 1) 1))
    ∧ (Bid.mk 3 (2 ^ 53 + 1)).min_next_count 1 = some (2 ^ 52)
    ∧ spec_min_next_count 3 (2 ^ 53 + 1) 1 = 2 ^ 52 + 1 := by
  refine ⟨?_, by decide, by decide⟩
  intro h
  have h1 : (Bid.mk 3 (2 ^ 53 + 1)).min_next_count 1 = some (2 ^ 52) := by decide
  have h2 : spec_min_next_count 3 (2 ^ 53 + 1) 1 = 2 ^ 52 + 1 := by decide
  rw [h1, h2] at h
  injection h with h3
  omega

/-- C1 amended — for every valid previous bid with positive count at most
`2 ^ 53` (the regime in which `count / 2` is float-exact) and every valid
next face, `Bid.min_next_count` returns, without raising, exactly the
five-case table of spec section 4.1; from `prevCount = 2 ^ 53 + 1` on, the
float division rounds and the returned value can fall below the table
(first at wild-face bids, where `2 ^ 52` replaces `2 ^ 52 + 1`), and from
`|count / 2| ≥ 2 ^ 1024` the division raises `OverflowError`. -/
theorem min_next_count_matches_spec_table (pface pcount nface : Int)
    (hpf : validate_face pface = true) (hpc : 0 < pcount)
    (hbound : pcount ≤ 2 ^ 53)
    (hnf : validate_face nface = true) :
    (Bid.mk pface pcount).min_next_count nface
      = some (spec_min_next_count pface pcount nface) := by
  have h53 : (2 : Int) ^ 53 = 9007199254740992 := by norm_num
  have hb : pcount.natAbs ≤ TWO_POW_53 := by
    unfold TWO_POW_53
    rw [h53] at hbound
    omega
  unfold Bid.min_next_count
  simp only [hpf, hnf, Bool.and_self, if_true]
  exact min_next_count_arith_exact pface pcount nface hb

/-- Witness for C1: the four boundary instances named by the claim,
`prevFace=3, prevCount=3 : minNextCount(1)=2, minNextCount(2)=5` and
`prevFace=1 (wild), prevCount=3 : minNextCount(1)=4, minNextCount(2)=7`. -/
theorem min_next_count_matches_spec_table_witness :
    (Bid.mk 3 3).min_next_count 1 = some 2
    ∧ (Bid.mk 3 3).min_next_count 2 = some 5
    ∧ (Bid.mk 1 3).min_next_count 1 = some 4
    ∧ (Bid.mk 1 3).min_next_count 2 = some 7 := by
  refine ⟨?_, ?_, ?_, ?_⟩
  · have h := min_next_count_matches_spec_table 3 3 1 (by decide) (by decide)
      (by norm_num) (by decide)
    simpa using h
  · have h := min_next_count_matches_spec_table 3 3 2 (by decide) (by decide)
      (by norm_num) (by decide)
    simpa using h
  · have h := min_next_count_matches_spec_table 1 3 1 (by decide) (by decide)
      (by norm_num) (by decide)
    simpa using h
  · have h := min_next_count_matches_spec_table 1 3 2 (by decide) (by decide)
      (by norm_num) (by decide)
    simpa using h

/-! ### Claim C10 — `DiceCounts.__getitem__` wrap-around -/
/-- C10 — for a `DiceCounts` over `NUM_FACES` slots, faces in
`[MIN_FACE_VAL - NUM_FACES, MIN_FACE_VAL)` are silently answered through
Python's negative-index wrap-around (face `0` reads the slot of the maximum
face), while faces above `MAX_FACE_VAL` or below `MIN_FACE_VAL - NUM_FACES`
raise `IndexError`. -/
theorem dicecounts_getitem_wraparound (counts : List Int)
    (hlen : counts.length = 6) (face : Int) :
    (MIN_FACE_VAL - NUM_FACES ≤ face ∧ face < MIN_FACE_VAL →
      DiceCounts.getitem ⟨counts⟩ face
        = counts[(face - MIN_FACE_VAL + NUM_FACES).toNat]?)
    ∧ (DiceCounts.getitem ⟨counts⟩ 0 = counts[5]?)
    ∧ (MAX_FACE_VAL < face ∨ face < MIN_FACE_VAL - NUM_FACES →
      DiceCounts.getitem ⟨counts⟩ face = none) := by
  have hM : MIN_FACE_VAL = 1 := by decide
  have hN : NUM_FACES = 6 := by decide
  have hX : MAX_FACE_VAL = 6 := by decide
  have key : ∀ f : Int, f < 1 → -5 ≤ f →
      DiceCounts.getitem ⟨counts⟩ f = counts[(f + 5).toNat]? := by
    intro f h1 h2
    unfold DiceCounts.getitem pyListGet
    rw [hM, hlen]
    rw [if_pos (by omega : f - 1 < 0)]
    rw [if_neg (by push_cast; omega : ¬ (f - 1 + ((6 : Nat) : Int) < 0))]
    congr 1 <;> push_cast <;> omega
  refine ⟨?_, ?_, ?_⟩
  · rintro ⟨h1, h2⟩
    rw [hM, hN] at h1
    rw [hM] at h2
    rw [hM, hN]
    rw [key face h2 (by omega)]
    congr 1 <;> omega
  · rw [key 0 (by norm_num) (by norm_num)]
    congr 1 <;> omega
  · rintro (h | h)
    · rw [hX] at h
      show pyListGet counts (face - MIN_FACE_VAL) = none
      unfold pyListGet
      rw [hM]
      rw [if_neg (by omega : ¬ (face - 1 < 0))]
      apply List.getElem?_eq_none
      omega
    · rw [hM, hN] at h
      unfold DiceCounts.getitem pyListGet
      rw [hM, hlen]
      rw [if_pos (by omega : face - 1 < 0)]
      rw [if_pos (by push_cast; omega : face - 1 + ((6 : Nat) : Int) < 0)]

/-- Witness for C10: with the counts `[10,20,30,40,50,60]` (faces 1..6),
`d[0]` silently yields `60` — the count of face 6 — while `d[7]` and `d[-6]`
raise. -/
theorem dicecounts_getitem_wraparound_witness :
    ([10, 20, 30, 40, 50, 60] : List Int).length = 6
    ∧ DiceCounts.getitem ⟨[10, 20, 30, 40, 50, 60]⟩ 0 = some 60
    ∧ DiceCounts.getitem ⟨[10, 20, 30, 40, 50, 60]⟩ 7 = none := by
  have h := dicecounts_getitem_wraparound [10, 20, 30, 40, 50, 60] (by decide) 7
  refine ⟨by decide, ?_, ?_⟩
  · have h0 := dicecounts_getitem_wraparound [10, 20, 30, 40, 50, 60] (by decide) 0
    simpa using h0.2.1
  · exact h.2.2 (by decide)

/-! ### Claim C5 — `Bid.validate` -/
/-- Helper: `DiceCounts.__getitem__` on a face inside
`[MIN_FACE_VAL, MAX_FACE_VAL]` reads the face's own slot and cannot raise. -/
theorem dicecounts_getitem_valid (counts : List Int) (hlen : counts.length = 6)
    (F : Int) (hF : validate_face F = true) :
    DiceCounts.getitem ⟨counts⟩ F
      = some (counts.getD (F - MIN_FACE_VAL).toNat 0) := by
  unfold validate_face MIN_FACE_VAL MAX_FACE_VAL at hF
  simp only [Bool.and_eq_true, decide_eq_true_eq] at hF
  show pyListGet counts (F - MIN_FACE_VAL) = _
  unfold pyListGet MIN_FACE_VAL
  rw [if_neg (by omega : ¬ (F - 1 < 0))]
  have hidx : (F - 1).toNat < counts.length := by omega
  rw [List.getElem?_eq_getElem hidx, List.getD_eq_getElem counts 0 hidx]

/-- Counterexample for C5 as stated: with the previous action
`Bid(face=7, count=1)` — a bid whose face is out of range — validating
`Bid(face=2, count=2)` raises `AssertionError` inside `min_next_count`
(the embedded `validate` returns `none`), so it neither returns an
`InvalidAction` nor the bid itself. -/
theorem bid_validate_claim_counterexample :
    ¬ bid_validate_claim_at ⟨2, 2⟩ (some (.bidA ⟨7, 1⟩)) false := by
  intro h
  have hc : bid_validate_claim_condition ⟨2, 2⟩ (some (.bidA ⟨7, 1⟩)) false := by
    refine Or.inr (Or.inr (Or.inr (Or.inr ⟨⟨7, 1⟩, 3, rfl, by decide, by decide⟩)))
  obtain ⟨att, r, habs⟩ := h.1 hc
  have hnone : Bid.validate ⟨2, 2⟩ (some (.bidA ⟨7, 1⟩)) false = none := by decide
  rw [hnone] at habs
  exact Option.noConfusion habs

/-- C5 amended — the claimed case analysis of `Bid.validate` is correct
whenever any previous `Bid` carries an in-range face and a count of
magnitude at most `2 ^ 53` (so that its `math.ceil(count / 2)` is
float-exact); outside that proviso `validate` escapes the claimed case
analysis by raising: `AssertionError` from the
`assert validate_face(self.face)` inside `min_next_count` when the previous
bid's face is out of range, and `OverflowError` from the float division when
the previous count is so large that `min_next_count`'s arithmetic overflows
(and from `|count| = 2 ^ 53 + 1` on, the float rounding can make the
accepted threshold lower than the exact table's). -/
theorem bid_validate_spec (b : Bid) (p : Option Action) (s : Bool) :
    ((∀ pb, p = some (.bidA pb) →
        validate_face pb.face = true ∧ pb.count.natAbs ≤ 2 ^ 53) →
      bid_validate_claim_at b p s)
    ∧ (∀ pb, p = some (.bidA pb) → validate_face pb.face = false →
        validate_face b.face = true → 0 < b.count → Bid.validate b p s = none)
    ∧ (∀ pb, p = some (.bidA pb) → validate_face pb.face = true →
        validate_face b.face = true → 0 < b.count →
        min_next_count_arith pb.face pb.count b.face = none →
        Bid.validate b p s = none) := by
  refine ⟨?_, ?_, ?_⟩
  · intro hp
    by_cases hf : validate_face b.face = true
    · by_cases hc : b.count ≤ 0
      · constructor
        · intro _
          refine ⟨.bidA b, "Non-positive Count", ?_⟩
          unfold Bid.validate
          simp [hf, hc]
        · intro hnc
          exact absurd (Or.inr (Or.inl hc)) hnc
      · match p with
        | none =>
          by_cases hw : b.face = 1 ∧ s = false
          · constructor
            · intro _
              refine ⟨.bidA b, "Invalid Starting Bid", ?_⟩
              have h1t : validate_face 1 = true := by decide
              unfold Bid.validate
              simp [hf, hc, hw.1, hw.2, h1t]
            · intro hnc
              exact absurd (Or.inr (Or.inr (Or.inl ⟨rfl, hw.1, hw.2⟩))) hnc
          · constructor
            · intro hcond
              rcases hcond with h1 | h2 | h3 | h4 | h5
              · rw [hf] at h1; exact absurd h1 (by decide)
              · exact absurd h2 hc
              · exact absurd ⟨h3.2.1, h3.2.2⟩ hw
              · obtain ⟨a, ha, _⟩ := h4
                exact Option.noConfusion ha
              · obtain ⟨pb, m, hpb, _, _⟩ := h5
                exact Option.noConfusion hpb
            · intro _
              unfold Bid.validate
              simp [hf, hc, hw]
        | some (.bidA pb) =>
          obtain ⟨hpb, hpc53⟩ := hp pb rfl
          have hb53 : pb.count.natAbs ≤ TWO_POW_53 := by
            have h53n : (2 : Nat) ^ 53 = TWO_POW_53 := by norm_num [TWO_POW_53]
            rw [← h53n]
            exact hpc53
          have hexact := min_next_count_arith_exact pb.face pb.count b.face hb53
          have hmnc : pb.min_next_count b.face
              = some (spec_min_next_count pb.face pb.count b.face) := by
            unfold Bid.min_next_count
            simp [hf, hpb, hexact]
          by_cases hlt : b.count < spec_min_next_count pb.face pb.count b.face
          · constructor
            · intro _
              refine ⟨.bidA b,
                "Count for face " ++ toString b.face ++ " must be at least "
                  ++ toString (spec_min_next_count pb.face pb.count b.face)
                  ++ " (because of previous_action)", ?_⟩
              unfold Bid.validate
              simp [hf, hc, hmnc, hlt]
            · intro hnc
              exact absurd (Or.inr (Or.inr (Or.inr (Or.inr
                ⟨pb, spec_min_next_count pb.face pb.count b.face,
                  rfl, hexact, hlt⟩)))) hnc
          · constructor
            · intro hcond
              rcases hcond with h1 | h2 | h3 | h4 | h5
              · rw [hf] at h1; exact absurd h1 (by decide)
              · exact absurd h2 hc
              · exact Option.noConfusion h3.1
              · obtain ⟨a, ha, hne⟩ := h4
                have haeq : a = Action.bidA pb := by
                  injection ha with ha2
                  exact ha2.symm
                exact absurd haeq (hne pb)
              · obtain ⟨pb2, m2, hpb2, hm2, hlt2⟩ := h5
                have hpbe : pb2 = pb := by
                  injection hpb2 with h
                  cases h
                  rfl
                rw [hpbe, hexact] at hm2
                injection hm2 with hme
                rw [← hme] at hlt2
                exact absurd hlt2 hlt
            · intro _
              unfold Bid.validate
              simp [hf, hc, hmnc, hlt]
        | some .challengeA =>
          constructor
          · intro _
            refine ⟨.bidA b, "Following non-bid (should be impossible)", ?_⟩
            unfold Bid.validate
            simp [hf, hc]
          · intro hnc
            exact absurd (Or.inr (Or.inr (Or.inr (Or.inl
              ⟨.challengeA, rfl, fun pb => by simp⟩)))) hnc
        | some .exactA =>
          constructor
          · intro _
            refine ⟨.bidA b, "Following non-bid (should be impossible)", ?_⟩
            unfold Bid.validate
            simp [hf, hc]
          · intro hnc
            exact absurd (Or.inr (Or.inr (Or.inr (Or.inl
              ⟨.exactA, rfl, fun pb => by simp⟩)))) hnc
        | some (.invalidA att r) =>
          constructor
          · intro _
            refine ⟨.bidA b, "Following non-bid (should be impossible)", ?_⟩
            unfold Bid.validate
            simp [hf, hc]
          · intro hnc
            exact absurd (Or.inr (Or.inr (Or.inr (Or.inl
              ⟨.invalidA att r, rfl, fun pb => by simp⟩)))) hnc
        | some .noOpA =>
          constructor
          · intro _
            refine ⟨.bidA b, "Following non-bid (should be impossible)", ?_⟩
            unfold Bid.validate
            simp [hf, hc]
          · intro hnc
            exact absurd (Or.inr (Or.inr (Or.inr (Or.inl
              ⟨.noOpA, rfl, fun pb => by simp⟩)))) hnc
        | some .noOpFirstTurnSkipA =>
          constructor
          · intro _
            refine ⟨.bidA b, "Following non-bid (should be impossible)", ?_⟩
            unfold Bid.validate
            simp [hf, hc]
          · intro hnc
            exact absurd (Or.inr (Or.inr (Or.inr (Or.inl
              ⟨.noOpFirstTurnSkipA, rfl, fun pb => by simp⟩)))) hnc
        | some .noOpDeadA =>
          constructor
          · intro _
            refine ⟨.bidA b, "Following non-bid (should be impossible)", ?_⟩
            unfold Bid.validate
            simp [hf, hc]
          · intro hnc
            exact absurd (Or.inr (Or.inr (Or.inr (Or.inl
              ⟨.noOpDeadA, rfl, fun pb => by simp⟩)))) hnc
    · have hf2 : validate_face b.face = false := by
        cases hb : validate_face b.face
        · rfl
        · exact absurd hb hf
      constructor
      · intro _
        refine ⟨.bidA b, "Invalid Face", ?_⟩
        unfold Bid.validate
        simp [hf2]
      · intro hnc
        exact absurd (Or.inl hf2) hnc
  · intro pb hpeq hpb hbf hbc
    subst hpeq
    have hcc : ¬ b.count ≤ 0 := by omega
    have hmnc : pb.min_next_count b.face = none := by
      unfold Bid.min_next_count
      simp [hpb]
    unfold Bid.validate
    simp [hbf, hcc, hmnc]
  · intro pb hpeq hpb hbf hbc hover
    subst hpeq
    have hcc : ¬ b.count ≤ 0 := by omega
    have hmnc : pb.min_next_count b.face = none := by
      unfold Bid.min_next_count
      simp [hbf, hpb, hover]
    unfold Bid.validate
    simp [hbf, hcc, hmnc]

/-- Witness for C5: the two concrete instances named by the claim —
`Bid(face=7, count=2).validate(None, False)` is an `InvalidAction` and
`Bid(face=2, count=2).validate(None, False)` is the bid itself — plus the
assert case at the counterexample input. -/
theorem bid_validate_spec_witness :
    (∃ att r, Bid.validate ⟨7, 2⟩ none false = some (.invalidA att r))
    ∧ Bid.validate ⟨2, 2⟩ none false = some (.bidA ⟨2, 2⟩)
    ∧ Bid.validate ⟨2, 2⟩ (some (.bidA ⟨7, 1⟩)) false = none := by
  refine ⟨?_, ?_, ?_⟩
  · exact (bid_validate_spec ⟨7, 2⟩ none false).1
      (fun pb h => Option.noConfusion h)
      |>.1 (Or.inl (by decide))
  · exact (bid_validate_spec ⟨2, 2⟩ none false).1
      (fun pb h => Option.noConfusion h)
      |>.2 (by
        rintro (h1 | h2 | h3 | h4 | h5)
        · exact absurd h1 (by decide)
        · exact absurd h2 (by decide)
        · exact absurd h3.2.1 (by decide)
        · obtain ⟨a, ha, _⟩ := h4
          exact Option.noConfusion ha
        · obtain ⟨pb, m, hpb, _, _⟩ := h5
          exact Option.noConfusion hpb)
  · exact (bid_validate_spec ⟨2, 2⟩ (some (.bidA ⟨7, 1⟩)) false).2.1
      ⟨7, 1⟩ rfl (by decide) (by decide) (by decide)

/-- C2 — for an aggregate `DiceCounts` over the six faces and a previous bid
with in-range face `F` and count `C`: `Challenge.get_losers` returns exactly
`[previous_player]` when the matching count is below `C` and `[caller]`
otherwise, and `Exact.get_losers` returns exactly the other (living) players
when the matching count equals `C` and `[caller]` otherwise. -/
theorem end_action_get_losers_spec {T : Type} (counts : List Int)
    (hlen : counts.length = 6) (F C : Int) (hF : validate_face F = true)
    (s : Bool) (caller previous_player : T) (other_players : List T) :
    Challenge.get_losers (some (.bidA ⟨F, C⟩)) ⟨counts⟩ s
        caller previous_player other_players
      = some (if matching_count counts F s < C
          then [previous_player] else [caller])
    ∧ Exact.get_losers (some (.bidA ⟨F, C⟩)) ⟨counts⟩ s
        caller previous_player other_players
      = some (if matching_count counts F s = C
          then other_players else [caller]) := by
  have hbase := dicecounts_getitem_valid counts hlen F hF
  have hwild := dicecounts_getitem_valid counts hlen WILD_FACE_VAL (by decide)
  by_cases hcond : s = false ∧ F ≠ WILD_FACE_VAL
  · constructor
    · simp [Challenge.get_losers, hbase, hwild, matching_count, if_pos hcond,
        hcond.1, hcond.2]
    · simp [Exact.get_losers, hbase, hwild, matching_count, if_pos hcond,
        hcond.1, hcond.2]
  · constructor
    · simp [Challenge.get_losers, hbase, hwild, matching_count, if_neg hcond,
        hcond]
    · simp [Exact.get_losers, hbase, hwild, matching_count, if_neg hcond,
        hcond]

/-- Witness for C2: the spec section 8 examples.  With aggregate counts
`{3:2, 2:1, 6:1}` and bid `face=3, count=2`, `Challenge` blames the caller;
with `{3:1, 2:2, 6:1}` it blames the previous bidder; `Exact` on
`{3:1, 2:2, 6:1}` with bid `face=2, count=2` penalizes the other players. -/
theorem end_action_get_losers_spec_witness :
    Challenge.get_losers (T := Nat) (some (.bidA ⟨3, 2⟩)) ⟨[0, 1, 2, 0, 0, 1]⟩
        false 0 1 [1, 2] = some [0]
    ∧ Challenge.get_losers (T := Nat) (some (.bidA ⟨3, 2⟩)) ⟨[0, 2, 1, 0, 0, 1]⟩
        false 0 1 [1, 2] = some [1]
    ∧ Exact.get_losers (T := Nat) (some (.bidA ⟨2, 2⟩)) ⟨[0, 2, 1, 0, 0, 1]⟩
        false 0 1 [1, 2] = some [1, 2] := by
  refine ⟨?_, ?_, ?_⟩
  · have h := (end_action_get_losers_spec [0, 1, 2, 0, 0, 1] (by decide) 3 2
      (by decide) false 0 1 [1, 2]).1
    rw [h]
    decide
  · have h := (end_action_get_losers_spec [0, 2, 1, 0, 0, 1] (by decide) 3 2
      (by decide) false 0 1 [1, 2]).1
    rw [h]
    decide
  · have h := (end_action_get_losers_spec [0, 2, 1, 0, 0, 1] (by decide) 2 2
      (by decide) false 0 1 [1, 2]).2
    rw [h]
    decide

theorem end_round_decrement_cons (last : List Nat) (i : Nat) (rest : List Nat) :
    end_round_decrement last (i :: rest)
      = end_round_decrement (last.set i (max 0 (last.getD i 0 - 1))) rest := rfl

theorem end_round_decrement_length (last losers : List Nat) :
    (end_round_decrement last losers).length = last.length := by
  induction losers generalizing last with
  | nil => rfl
  | cons i rest ih =>
    rw [end_round_decrement_cons, ih, List.length_set]

theorem getD_set_self (l : List Nat) (i v : Nat) (h : i < l.length) :
    (l.set i v).getD i 0 = v := by
  rw [List.getD_eq_getElem?_getD, List.getElem?_set_eq_of_lt v h]
  rfl

theorem getD_set_ne (l : List Nat) (i j v : Nat) (h : i ≠ j) :
    (l.set i v).getD j 0 = l.getD j 0 := by
  rw [List.getD_eq_getElem?_getD, List.getD_eq_getElem?_getD,
    List.getElem?_set_ne h]

theorem end_round_decrement_getD (last : List Nat) (losers : List Nat)
    (hnd : losers.Nodup) (hrange : ∀ i ∈ losers, i < last.length) (j : Nat) :
    (end_round_decrement last losers).getD j 0
      = if j ∈ losers then max 0 (last.getD j 0 - 1) else last.getD j 0 := by
  induction losers generalizing last with
  | nil => simp [end_round_decrement]
  | cons i rest ih =>
    rw [end_round_decrement_cons]
    have hi : i < last.length := hrange i (by simp)
    have hcons := List.nodup_cons.mp hnd
    have hrr : ∀ k ∈ rest, k < (last.set i (max 0 (last.getD i 0 - 1))).length := by
      rw [List.length_set]
      intro k hk
      exact hrange k (by simp [hk])
    rw [ih _ hcons.2 hrr]
    by_cases hji : j = i
    · subst hji
      rw [if_neg (fun hmem => hcons.1 hmem), if_pos (by simp)]
      exact getD_set_self last j _ hi
    · by_cases hjr : j ∈ rest
      · rw [if_pos hjr, if_pos (by simp [hjr])]
        rw [getD_set_ne last i j _ (fun he => hji he.symm)]
      · rw [if_neg hjr, if_neg (by simp [hji, hjr])]
        rw [getD_set_ne last i j _ (fun he => hji he.symm)]

theorem end_round_decrement_le (last losers : List Nat) (j : Nat) :
    (end_round_decrement last losers).getD j 0 ≤ last.getD j 0 := by
  induction losers generalizing last with
  | nil => exact le_refl _
  | cons i rest ih =>
    rw [end_round_decrement_cons]
    refine le_trans (ih _) ?_
    by_cases hij : i = j
    · subst hij
      by_cases hi : i < last.length
      · rw [getD_set_self last i _ hi]
        omega
      · rw [List.set_eq_of_length_le (by omega)]
    · rw [getD_set_ne last i j _ hij]

theorem hist_reachable_ne_nil (n : Nat) (hist : List (List Nat))
    (h : HistReachable n hist) : hist ≠ [] := by
  induction h with
  | init => simp
  | step hist losers _ _ => simp [end_round_hist]

theorem getD_append_lt (l₁ l₂ : List (List Nat)) (k : Nat) (h : k < l₁.length) :
    (l₁ ++ l₂).getD k [] = l₁.getD k [] := by
  rw [List.getD_eq_getElem?_getD, List.getElem?_append_left h,
    ← List.getD_eq_getElem?_getD]

theorem getD_append_ge (l₁ l₂ : List (List Nat)) (k : Nat) (h : l₁.length ≤ k) :
    (l₁ ++ l₂).getD k [] = l₂.getD (k - l₁.length) [] := by
  rw [List.getD_eq_getElem?_getD, List.getElem?_append_right h,
    ← List.getD_eq_getElem?_getD]

theorem getLastD_eq_getD (hist : List (List Nat)) (k : Nat)
    (hk : k + 1 = hist.length) : hist.getLastD [] = hist.getD k [] := by
  have hk2 : hist.length - 1 = k := by omega
  rw [List.getLastD_eq_getLast?, List.getLast?_eq_getElem?, hk2,
    ← List.getD_eq_getElem?_getD]

theorem hist_reachable_mono (n : Nat) (hist : List (List Nat))
    (h : HistReachable n hist) (k j : Nat) :
    (hist.getD (k + 1) []).getD j 0 ≤ (hist.getD k []).getD j 0 := by
  induction h generalizing k with
  | init =>
    match k with
    | 0 => simp
    | k + 1 => simp
  | step hist losers hr ih =>
    have hne := hist_reachable_ne_nil n hist hr
    have hlen : 0 < hist.length := List.length_pos.mpr hne
    unfold end_round_hist
    rcases lt_trichotomy (k + 1) hist.length with hk | hk | hk
    · rw [getD_append_lt _ _ _ hk, getD_append_lt _ _ _ (by omega)]
      exact ih k
    · rw [getD_append_ge _ _ (k + 1) (by omega), getD_append_lt _ _ k (by omega)]
      have h0 : k + 1 - hist.length = 0 := by omega
      rw [h0]
      show (end_round_decrement (hist.getLastD []) losers).getD j 0
        ≤ (hist.getD k []).getD j 0
      rw [← getLastD_eq_getD hist k hk]
      exact end_round_decrement_le _ _ _
    · rw [getD_append_ge _ _ (k + 1) (by omega)]
      have h0 : ([end_round_decrement (hist.getLastD []) losers].getD
          (k + 1 - hist.length) [] : List Nat) = [] := by
        rw [List.getD_eq_getElem?_getD, List.getElem?_eq_none]
        · rfl
        · simp only [List.length_singleton]
          omega
      rw [h0]
      simp

/-- C6 — `end_round` appends exactly one snapshot to
`num_dice_by_player_history`, leaving every earlier snapshot unchanged; the
new snapshot decrements each (distinct, in-range) loser's count by exactly 1
floored at 0 and leaves every other player's count unchanged; and in every
history reachable through `from_player_list` followed by `end_round` steps —
the only two writers of the field — successive snapshots are pointwise
non-increasing. -/
theorem end_round_history_spec (n : Nat) (hist : List (List Nat))
    (losers : List Nat) (hR : HistReachable n hist) (hnd : losers.Nodup)
    (hrange : ∀ i ∈ losers, i < (hist.getLastD []).length) :
    (end_round_hist hist losers).length = hist.length + 1
    ∧ (end_round_hist hist losers).take hist.length = hist
    ∧ (∀ j : Nat,
        ((end_round_hist hist losers).getLastD []).getD j 0
          = if j ∈ losers then max 0 ((hist.getLastD []).getD j 0 - 1)
            else (hist.getLastD []).getD j 0)
    ∧ (∀ k j : Nat, (hist.getD (k + 1) []).getD j 0 ≤ (hist.getD k []).getD j 0) := by
  refine ⟨?_, ?_, ?_, ?_⟩
  · simp [end_round_hist]
  · unfold end_round_hist
    exact List.take_left hist _
  · intro j
    unfold end_round_hist
    rw [List.getLastD_concat]
    exact end_round_decrement_getD _ _ hnd hrange j
  · exact hist_reachable_mono n hist hR

/-- Witness for C6: two players with the initial `[5, 5]` snapshot; player 0
loses a die, giving history `[[5, 5], [4, 5]]`. -/
theorem end_round_history_spec_witness :
    ([0] : List Nat).Nodup
    ∧ end_round_hist [[5, 5]] [0] = [[5, 5], [4, 5]]
    ∧ ((end_round_hist [[5, 5]] [0]).length = 2
        ∧ (end_round_hist [[5, 5]] [0]).take 1 = [[5, 5]]
        ∧ (∀ j : Nat,
            ((end_round_hist [[5, 5]] [0]).getLastD []).getD j 0
              = if j ∈ ([0] : List Nat)
                then max 0 ((([[5, 5]] : List (List Nat)).getLastD []).getD j 0 - 1)
                else (([[5, 5]] : List (List Nat)).getLastD []).getD j 0)
        ∧ (∀ k j : Nat,
            (([[5, 5]] : List (List Nat)).getD (k + 1) []).getD j 0
              ≤ (([[5, 5]] : List (List Nat)).getD k []).getD j 0)) := by
  have hinit : HistReachable 2 [[5, 5]] := by
    have h := HistReachable.init (n := 2)
    simpa [STARTING_NUM_DICE] using h
  have h := end_round_history_spec 2 [[5, 5]] [0] hinit (by decide)
    (by intro i hi; simp at hi; subst hi; decide)
  exact ⟨by decide, by decide, h⟩

/-- C3 fails on the code: in a two-player game where each player holds one
die showing face 2 and player 0 challenges player 1's true bid of one 2,
`Challenge.get_losers` blames the caller (player 0), `end_round` brings the
dice history to `[0, 1]`, the game is over, and `main_loop` reports the
unchanged `cur_player_index = 0` as the winner — but the unique player still
holding dice is player 1. -/
theorem main_loop_winner_divergence :
    Challenge.get_losers (T := Nat) (some (.bidA ⟨2, 1⟩)) ⟨[0, 2, 0, 0, 0, 0]⟩
        false 0 1 [1] = some [0]
    ∧ end_round_decrement [1, 1] [0] = [0, 1]
    ∧ main_loop_end_step [[1, 1]] 0 [0] = some 0
    ∧ ([0, 1] : List Nat).getD 0 0 = 0
    ∧ ([0, 1] : List Nat).getD 1 0 = 1
    ∧ ([0, 1] : List Nat).countP (fun num => decide (0 < num)) = 1 := by
  decide

theorem mod_align_step (L c m n : Nat) (h : L % n = c) :
    (c + 1 + m) % n = (L + m + 1) % n := by
  conv_lhs => rw [← h]
  rw [Nat.add_assoc, Nat.mod_add_mod]
  congr 1
  omega

theorem find_next_living_spec (numDice : List Nat) (n : Nat) (hn : 0 < n) :
    ∀ fuel idx skipped r, idx < n →
      find_next_living numDice n fuel idx = some (skipped, r) →
      r < n ∧ r = (idx + skipped.length) % n
        ∧ ∀ k, k < skipped.length → skipped.getD k 0 = (idx + k) % n := by
  intro fuel
  induction fuel with
  | zero => intro idx skipped r _ h; exact absurd h (by simp [find_next_living])
  | succ fuel ih =>
    intro idx skipped r hidx h
    unfold find_next_living at h
    by_cases halive : numDice.getD idx 0 ≠ 0
    · rw [if_pos halive] at h
      injection h with h2
      injection h2 with hs hr
      subst hs
      subst hr
      refine ⟨hidx, ?_, ?_⟩
      · simp [Nat.mod_eq_of_lt hidx]
      · intro k hk
        simp at hk
    · rw [if_neg halive] at h
      match hrec : find_next_living numDice n fuel ((idx + 1) % n) with
      | none => rw [hrec] at h; exact absurd h (by simp)
      | some (skipped2, r2) =>
        rw [hrec] at h
        injection h with h2
        injection h2 with hs hr
        subst hs
        subst hr
        obtain ⟨hrn, hreq, hget⟩ := ih ((idx + 1) % n) skipped2 r2
          (Nat.mod_lt _ hn) hrec
        refine ⟨hrn, ?_, ?_⟩
        · rw [hreq, Nat.mod_add_mod]
          simp only [List.length_cons]
          congr 1
          omega
        · intro k hk
          match k with
          | 0 =>
            simp [Nat.mod_eq_of_lt hidx]
          | k + 1 =>
            simp only [List.getD_cons_succ]
            rw [hget k (by simpa using hk), Nat.mod_add_mod]
            congr 1
            omega

/-- C4 — in every reachable round state, the log entry at index `i` is
attributed to the player at seat `i % numPlayers`; while the round is in
progress the log length modulo the player count equals the current player
index (the next entry to be appended will again be aligned). -/
theorem round_log_alignment (s : RoundState) (h : RoundReachable s) :
    (∀ i e, s.log[i]? = some e → e.1 = i % s.numPlayers)
    ∧ (s.finished = false →
        s.log.length % s.numPlayers = s.cur ∧ s.cur < s.numPlayers) := by
  induction h with
  | start n first numDice h0 h1 =>
    constructor
    · intro i e hi
      unfold start_round_state start_round_log at hi ⊢
      rw [List.getElem?_map] at hi
      match hrange : (List.range first)[i]? with
      | none => rw [hrange] at hi; exact absurd hi (by simp)
      | some v =>
        rw [hrange] at hi
        have hlt : i < first := by
          by_contra hge
          rw [List.getElem?_eq_none (by simp; omega)] at hrange
          exact Option.noConfusion hrange
        have hv : v = i := by
          rw [List.getElem?_range hlt] at hrange
          injection hrange with h2
          exact h2.symm
        injection hi with h2
        subst h2
        show v = i % n
        rw [hv, Nat.mod_eq_of_lt (by omega)]
    · intro _
      unfold start_round_state start_round_log
      simp only [List.length_map, List.length_range]
      exact ⟨Nat.mod_eq_of_lt h1, h1⟩
  | step s s₂ a hr hs ih =>
    unfold take_turn_step at hs
    by_cases hfin : s.finished
    · rw [if_pos hfin] at hs; exact absurd hs (by simp)
    · rw [if_neg hfin] at hs
      by_cases hdead : s.numDice.getD s.cur 0 = 0
      · rw [if_pos hdead] at hs; exact absurd hs (by simp)
      · rw [if_neg hdead] at hs
        obtain ⟨hcur, hclt⟩ := ih.2 (by simpa using hfin)
        have hn : 0 < s.numPlayers := by omega
        match hfind : find_next_living s.numDice s.numPlayers s.numPlayers
            ((s.cur + 1) % s.numPlayers) with
        | none => rw [hfind] at hs; exact absurd hs (by simp)
        | some (skipped, nxt) =>
          rw [hfind] at hs
          injection hs with hs2
          subst hs2
          obtain ⟨hnlt, hneq, hget⟩ := find_next_living_spec s.numDice
            s.numPlayers hn s.numPlayers ((s.cur + 1) % s.numPlayers)
            skipped nxt (Nat.mod_lt _ hn) hfind
          constructor
          · intro i e hi
            simp only at hi ⊢
            rcases lt_trichotomy i s.log.length with hilt | hieq | higt
            · rw [List.getElem?_append_left hilt] at hi
              exact ih.1 i e hi
            · rw [List.getElem?_append_right (by omega)] at hi
              rw [hieq, Nat.sub_self] at hi
              simp only [List.getElem?_cons_zero] at hi
              injection hi with h2
              subst h2
              show s.cur = i % s.numPlayers
              rw [hieq, hcur]
            · rw [List.getElem?_append_right (by omega)] at hi
              obtain ⟨m, hm⟩ : ∃ m, i - s.log.length = m + 1 :=
                ⟨i - s.log.length - 1, by omega⟩
              rw [hm] at hi
              simp only [List.getElem?_cons_succ] at hi
              rw [List.getElem?_map] at hi
              match hsk : skipped[m]? with
              | none => rw [hsk] at hi; exact absurd hi (by simp)
              | some v =>
                rw [hsk] at hi
                injection hi with h2
                subst h2
                show v = i % s.numPlayers
                have hmlt : m < skipped.length := by
                  by_contra hge
                  rw [List.getElem?_eq_none (by omega)] at hsk
                  exact Option.noConfusion hsk
                have hv : v = ((s.cur + 1) % s.numPlayers + m) % s.numPlayers := by
                  have hg := hget m hmlt
                  rw [List.getD_eq_getElem?_getD, hsk] at hg
                  simpa using hg
                have hieq : i = s.log.length + m + 1 := by omega
                rw [hv, Nat.mod_add_mod, hieq]
                exact mod_align_step s.log.length s.cur m s.numPlayers hcur
          · intro _
            constructor
            · simp only [List.length_append, List.length_cons, List.length_map]
              rw [hneq, Nat.mod_add_mod, ← Nat.add_assoc]
              exact (mod_align_step s.log.length s.cur skipped.length
                s.numPlayers hcur).symm
            · simpa using hnlt
  | stepEnd s s₂ a hr hs ih =>
    unfold take_turn_end at hs
    by_cases hfin : s.finished
    · rw [if_pos hfin] at hs; exact absurd hs (by simp)
    · rw [if_neg hfin] at hs
      by_cases hdead : s.numDice.getD s.cur 0 = 0
      · rw [if_pos hdead] at hs; exact absurd hs (by simp)
      · rw [if_neg hdead] at hs
        injection hs with hs2
        subst hs2
        obtain ⟨hcur, hclt⟩ := ih.2 (by simpa using hfin)
        constructor
        · intro i e hi
          simp only at hi ⊢
          rcases lt_trichotomy i s.log.length with hilt | hieq | higt
          · rw [List.getElem?_append_left hilt] at hi
            exact ih.1 i e hi
          · rw [List.getElem?_append_right (by omega)] at hi
            rw [hieq, Nat.sub_self] at hi
            simp only [List.getElem?_cons_zero] at hi
            injection hi with h2
            subst h2
            show s.cur = i % s.numPlayers
            rw [hieq, hcur]
          · rw [List.getElem?_append_right (by omega)] at hi
            rw [List.getElem?_eq_none (by simp; omega)] at hi
            exact Option.noConfusion hi
        · intro hco
          simp at hco

/-- Witness for C4: three players, round started by player 2 with player 1
dead (`numDice = [1, 0, 1]`), then a bid by player 2 and a bid by player 0
that skips the dead player 1.  Every one of the five log entries sits at an
index congruent to its seat mod 3, and the log length mod 3 is the current
player index 2. -/
theorem round_log_alignment_witness :
    (∀ i e, ([(0, GAct.firstTurnSkip), (1, GAct.firstTurnSkip),
        (2, GAct.act (.bidA ⟨2, 1⟩)), (0, GAct.act (.bidA ⟨2, 2⟩)),
        (1, GAct.dead)] : List (Nat × GAct))[i]? = some e → e.1 = i % 3)
    ∧ ((5 : Nat) % 3 = 2 ∧ (2 : Nat) < 3) := by
  have h0 : RoundReachable (start_round_state 3 2 [1, 0, 1]) :=
    RoundReachable.start 3 2 [1, 0, 1] (by decide) (by decide)
  have h1 : RoundReachable ⟨3, [1, 0, 1],
      [(0, GAct.firstTurnSkip), (1, GAct.firstTurnSkip),
        (2, GAct.act (.bidA ⟨2, 1⟩))], 0, false⟩ :=
    RoundReachable.step _ _ (.bidA ⟨2, 1⟩) h0 (by rfl)
  have h2 : RoundReachable ⟨3, [1, 0, 1],
      [(0, GAct.firstTurnSkip), (1, GAct.firstTurnSkip),
        (2, GAct.act (.bidA ⟨2, 1⟩)), (0, GAct.act (.bidA ⟨2, 2⟩)),
        (1, GAct.dead)], 2, false⟩ :=
    RoundReachable.step _ _ (.bidA ⟨2, 2⟩) h1 (by rfl)
  have h := round_log_alignment _ h2
  exact ⟨h.1, h.2 rfl⟩

/-- C9 fails on the code: `ping` references `messaging.NoOpMessage`, a name
the messaging module does not define (its no-op record class is `NoOp`), so
every call raises `AttributeError` before anything is sent — it neither
sends a no-op envelope nor returns a liveness boolean. -/
theorem ping_noopmessage_missing :
    Connection.ping_first_step = none
    ∧ module_getattr messaging_module_class_names "NoOp" = some "NoOp" := by
  constructor
  · rfl
  · rfl

theorem from_bytes_verify_fail {P : Type}
    (registry : String → Option (List Nat → Option P))
    (verify : List Nat → List Nat → List Nat → Bool)
    (st : MessagingState) (e : Envelope)
    (hver : verify e.public_key e.signature
      (thing_to_sign e.public_key e.type_name e.data e.salt) = false) :
    WrappedMessage.from_bytes registry verify st e = (none, st) := by
  unfold WrappedMessage.from_bytes
  split
  · rfl
  · split
    · rfl
    · simp [hver]

/-- C7 — `WrappedMessage.from_bytes` fails (raising `ConstructionError`,
leaving the replay state untouched) on an unknown type tag, on a replayed
`(public key, salt)` pair, on a signature that does not verify over
`salt ‖ public_key ‖ type_name ‖ data`, and on a version mismatch; it
succeeds only when none of these hold and the payload decodes, in which case
— and only then — the `(public key, salt)` pair is recorded; and when the
signature fails the payload decoder is never consulted (the result does not
depend on it). -/
theorem wrapped_message_from_bytes_spec {P : Type}
    (registry : String → Option (List Nat → Option P))
    (verify : List Nat → List Nat → List Nat → Bool)
    (st : MessagingState) (e : Envelope) :
    (registry e.type_name = none →
      WrappedMessage.from_bytes registry verify st e = (none, st))
    ∧ ((e.public_key, e.salt) ∈ st.received_salts →
      WrappedMessage.from_bytes registry verify st e = (none, st))
    ∧ (verify e.public_key e.signature
        (thing_to_sign e.public_key e.type_name e.data e.salt) = false →
      WrappedMessage.from_bytes registry verify st e = (none, st))
    ∧ (e.version ≠ VERSION →
      WrappedMessage.from_bytes registry verify st e = (none, st))
    ∧ (∀ p st₂, WrappedMessage.from_bytes registry verify st e = (some p, st₂) →
        verify e.public_key e.signature
          (thing_to_sign e.public_key e.type_name e.data e.salt) = true
        ∧ e.version = VERSION
        ∧ (e.public_key, e.salt) ∉ st.received_salts
        ∧ (∃ dec, registry e.type_name = some dec ∧ dec e.data = some p)
        ∧ st₂.received_salts = st.received_salts ++ [(e.public_key, e.salt)])
    ∧ ((WrappedMessage.from_bytes registry verify st e).1 = none →
      (WrappedMessage.from_bytes registry verify st e).2 = st)
    ∧ (∀ dec dec2 : List Nat → Option P,
        verify e.public_key e.signature
          (thing_to_sign e.public_key e.type_name e.data e.salt) = false →
        WrappedMessage.from_bytes
            (fun t => if t = e.type_name then some dec else registry t)
            verify st e
          = WrappedMessage.from_bytes
            (fun t => if t = e.type_name then some dec2 else registry t)
            verify st e) := by
  refine ⟨?_, ?_, ?_, ?_, ?_, ?_, ?_⟩
  · intro hreg
    unfold WrappedMessage.from_bytes
    rw [hreg]
    split <;> rfl
  · intro hmem
    unfold WrappedMessage.from_bytes
    rw [if_pos hmem]
  · intro hver
    exact from_bytes_verify_fail registry verify st e hver
  · intro hv
    unfold WrappedMessage.from_bytes
    split
    · rfl
    · split
      · rfl
      · simp [hv]
  · intro p st₂ h
    unfold WrappedMessage.from_bytes at h
    split at h
    · simp at h
    · rename_i hmem
      split at h
      · simp at h
      · rename_i dec hreg
        split at h
        · simp at h
        · rename_i hv
          split at h
          · simp at h
          · rename_i hver
            split at h
            · simp at h
            · rename_i payload hdec
              injection h with h1 h2
              injection h1 with h1
              have hvt : verify e.public_key e.signature
                  (thing_to_sign e.public_key e.type_name e.data e.salt)
                    = true := by
                cases hb : verify e.public_key e.signature
                  (thing_to_sign e.public_key e.type_name e.data e.salt)
                · exact absurd hb hver
                · rfl
              refine ⟨hvt, not_not.mp hv, hmem,
                ⟨dec, hreg, by rw [hdec, h1]⟩, ?_⟩
              rw [← h2]
  · unfold WrappedMessage.from_bytes
    split
    · intro _; rfl
    · split
      · intro _; rfl
      · split
        · intro _; rfl
        · split
          · intro _; rfl
          · split
            · intro _; rfl
            · intro h; simp at h
  · intro dec dec2 hver
    rw [from_bytes_verify_fail _ verify st e hver,
      from_bytes_verify_fail _ verify st e hver]

/-- Witness for C7: a tiny concrete registry knowing only the tag NoOp with
a constant decoder; an unknown tag, a replayed pair, a failing verifier and
a version mismatch each produce `(none, st)` with the state unchanged. -/
theorem wrapped_message_from_bytes_spec_witness :
    WrappedMessage.from_bytes (P := Nat)
        (fun t => if t = "NoOp" then some (fun _ => some 7) else none)
        (fun _ _ _ => true) ⟨[]⟩ ⟨[1], [2], "Bad", [3], [4], "0.1"⟩
      = (none, ⟨[]⟩)
    ∧ WrappedMessage.from_bytes (P := Nat)
        (fun t => if t = "NoOp" then some (fun _ => some 7) else none)
        (fun _ _ _ => true) ⟨[([2], [1])]⟩ ⟨[1], [2], "NoOp", [3], [4], "0.1"⟩
      = (none, ⟨[([2], [1])]⟩)
    ∧ WrappedMessage.from_bytes (P := Nat)
        (fun t => if t = "NoOp" then some (fun _ => some 7) else none)
        (fun _ _ _ => false) ⟨[]⟩ ⟨[1], [2], "NoOp", [3], [4], "0.1"⟩
      = (none, ⟨[]⟩)
    ∧ WrappedMessage.from_bytes (P := Nat)
        (fun t => if t = "NoOp" then some (fun _ => some 7) else none)
        (fun _ _ _ => true) ⟨[]⟩ ⟨[1], [2], "NoOp", [3], [4], "0.2"⟩
      = (none, ⟨[]⟩) := by
  refine ⟨?_, ?_, ?_, ?_⟩
  · exact (wrapped_message_from_bytes_spec _ _ _ _).1 (by rfl)
  · exact (wrapped_message_from_bytes_spec _ _ _ _).2.1 (by decide)
  · exact (wrapped_message_from_bytes_spec _ _ _ _).2.2.1 (by rfl)
  · exact (wrapped_message_from_bytes_spec _ _ _ _).2.2.2.1 (by decide)

/-- C8 fails on the code at the registered type `SetDice`:
`SetDice.from_json(SetDice(dice=Counter({1: 2})).to_json())` raises
`ConstructionError` — the counter serializes as a JSON object whose keys
come back as strings arranged in a plain dict, the dict→Counter restoration
branch is dead because the `Counter[int]` annotation is a `GenericAlias`
rather than the `Counter` class, and the typehint check then rejects the
dict.  An ordinary record such as `Bid` round-trips fine, so the failure is
specific to the Counter-typed field. -/
theorem setDice_round_trip_fails :
    from_dict 32 "SetDice" (json_round (setDice_to_dict [(1, 2)])) = none
    ∧ field_schema "SetDice" = some [("dice", PyHint.hCounterInt)]
    ∧ PyHint.is_counter_class .hCounterInt = false
    ∧ from_dict 32 "Bid" (json_round (bid_record_to_dict 2 3))
      = some (.orec "Bid" [("face", .oint 2), ("count", .oint 3)]) := by
  refine ⟨?_, rfl, rfl, ?_⟩
  · rfl
  · rfl

end Perudo
